import Mathlib

/-!
Verification of the order-lifecycle ledger (`contracts/OrderV1.sol`) and the
blockchain gateway service (`src/app/core/blockchain/blockchain.service.ts`)
of the supply-chain sample application.

The contract is shallowly embedded: contract storage becomes a Lean structure,
each external function becomes a Lean function returning `Option Order`
(Solidity `require` failure / revert is `none`, so a reverted call leaves the
stored order untouched), `msg.sender` and `now` are passed explicitly in an
`Env`.  Addresses are modelled as `Nat`, `bytes32` string constants as `String`,
and `uint32(now)` as `now % 2 ^ 32`.

`OrderAccessControl.sol` (the role guards) and the registry contract are not
part of the given sources; the pieces of them that the claims need are modelled
from the specification and marked as such in their doc comments.
-/

namespace SupplyChain

/-- Ethereum addresses, modelled abstractly as natural numbers. -/
abbrev Address := Nat

/-- The `uint32` modulus used by `addRecord`'s `uint32(now)` cast. -/
def UINT32 : Nat := 2 ^ 32

/-- Storage struct `Meta` of `OrderV1.sol`. -/
structure Meta where
  product : String
  amount : Nat
  revoked : Bool
deriving DecidableEq, Repr

/-- Storage struct `Record` of `OrderV1.sol` (a history entry). -/
structure Record where
  who : Address
  action : String
  time : Nat
deriving DecidableEq, Repr

/-- Storage struct `Location` of `OrderV1.sol`. -/
structure Location where
  latitude : String
  longitude : String
  who : Address
deriving DecidableEq, Repr

/-- Enum `State` of `OrderV1.sol`. -/
inductive State where
  | Ordered
  | Approved
  | Audited
  | AtWarehouse
  | WarehouseReleased
  | InTransit
  | Delivered
  | Revoked
deriving DecidableEq, Repr

/-- Enum `SubState` of `OrderV1.sol` (declared, never transitioned). -/
inductive SubState where
  | NoneSub
  | Pending
  | InTransitSub
deriving DecidableEq, Repr

/-- Modelled from the spec: the role slots of `OrderAccessControl.sol` (not in
the given sources).  §3 of the spec: "five disjoint role slots — farmer,
auditor, warehouse, distributor, supermarket — each holding a single authorized
address". -/
structure Roles where
  farmer : Address
  auditor : Address
  warehouse : Address
  distributor : Address
  supermarket : Address
deriving DecidableEq, Repr

/-- The full storage of one `OrderV1` contract instance.  The role slots and
the owner set live in the inherited `OrderAccessControl` contract and are
modelled from the spec (§3, §4.2). -/
structure Order where
  meta : Meta
  history : List Record
  locationHistory : List Location
  state : State
  subState : SubState
  contractCreator : Address
  roles : Roles
  owners : List Address
deriving DecidableEq, Repr

/-- The transaction context of a call: `msg.sender` and `now`. -/
structure Env where
  sender : Address
  now : Nat
deriving DecidableEq, Repr

/-- Modelled from the spec (§4.2): guard `onlyFarmer` of `OrderAccessControl`. -/
abbrev onlyFarmer (e : Env) (o : Order) : Prop := o.roles.farmer = e.sender

/-- Modelled from the spec (§4.2): guard `onlyAuditor`. -/
abbrev onlyAuditor (e : Env) (o : Order) : Prop := o.roles.auditor = e.sender

/-- Modelled from the spec (§4.2): guard `onlyWarehouse`. -/
abbrev onlyWarehouse (e : Env) (o : Order) : Prop := o.roles.warehouse = e.sender

/-- Modelled from the spec (§4.2): guard `onlyDistributor`. -/
abbrev onlyDistributor (e : Env) (o : Order) : Prop := o.roles.distributor = e.sender

/-- Modelled from the spec (§4.2): guard `onlySupermarket`. -/
abbrev onlySupermarket (e : Env) (o : Order) : Prop := o.roles.supermarket = e.sender

/-- Modelled from the spec (§4.2): compound guard `onlyFarmerOrAuditor`. -/
abbrev onlyFarmerOrAuditor (e : Env) (o : Order) : Prop :=
  o.roles.farmer = e.sender ∨ o.roles.auditor = e.sender

/-- Modelled from the spec (§4.2): guard `onlyContractOwners` — membership in
the order's owner set. -/
abbrev onlyContractOwners (e : Env) (o : Order) : Prop := e.sender ∈ o.owners

/-- The `OrderV1` constructor: sets the creator, the metadata (with
`revoked = false`), `state = Ordered` and `subState = None`. -/
def mkOrder (product : String) (amount : Nat) (creator : Address)
    (roles : Roles) : Order :=
  { meta := { product := product, amount := amount, revoked := false }
    history := []
    locationHistory := []
    state := State.Ordered
    subState := SubState.NoneSub
    contractCreator := creator
    roles := roles
    owners := [] }

/-- Internal `addRecord(bytes32 action)`: pushes
`Record(msg.sender, action, uint32(now))` onto `history`. -/
def addRecord (e : Env) (action : String) (o : Order) : Order :=
  { o with history :=
      o.history ++ [{ who := e.sender, action := action, time := e.now % UINT32 }] }

/-- The `approve()`: `onlyFarmer`, `inState(Ordered)`; records "Approved", then
sets `state = Approved`. -/
def approve (e : Env) (o : Order) : Option Order :=
  if onlyFarmer e o ∧ o.state = State.Ordered then
    some { addRecord e "Approved" o with state := State.Approved }
  else none

/-- The `validated()`: `onlyAuditor`, `inState(Approved)`; records "Audited", then
sets `state = Audited`. -/
def validated (e : Env) (o : Order) : Option Order :=
  if onlyAuditor e o ∧ o.state = State.Approved then
    some { addRecord e "Audited" o with state := State.Audited }
  else none

/-- The `storeAuditDocument()`: `onlyAuditor`, `inState(Audited)`; records
"Stored document" and leaves `state` unchanged. -/
def storeAuditDocument (e : Env) (o : Order) : Option Order :=
  if onlyAuditor e o ∧ o.state = State.Audited then
    some (addRecord e "Stored document" o)
  else none

/-- The `warehouseReceivedOrder()`: `onlyWarehouse`, `inState(Audited)`; sets
`state = AtWarehouse`, then records "Received". -/
def warehouseReceivedOrder (e : Env) (o : Order) : Option Order :=
  if onlyWarehouse e o ∧ o.state = State.Audited then
    some (addRecord e "Received" { o with state := State.AtWarehouse })
  else none

/-- The `warehouseReleasedOrder()`: `onlyWarehouse`, `inState(AtWarehouse)`; sets
`state = WarehouseReleased`, then records "Released". -/
def warehouseReleasedOrder (e : Env) (o : Order) : Option Order :=
  if onlyWarehouse e o ∧ o.state = State.AtWarehouse then
    some (addRecord e "Released" { o with state := State.WarehouseReleased })
  else none

/-- The `receivedAndInTransit()`: `onlyDistributor`, `inState(WarehouseReleased)`;
records "In Transit", then sets `state = InTransit`. -/
def receivedAndInTransit (e : Env) (o : Order) : Option Order :=
  if onlyDistributor e o ∧ o.state = State.WarehouseReleased then
    some { addRecord e "In Transit" o with state := State.InTransit }
  else none

/-- The `confirmDelivery()`: `onlySupermarket`, `inState(InTransit)`; records
"Confirmed Delivery", then sets `state = Delivered`. -/
def confirmDelivery (e : Env) (o : Order) : Option Order :=
  if onlySupermarket e o ∧ o.state = State.InTransit then
    some { addRecord e "Confirmed Delivery" o with state := State.Delivered }
  else none

/-- The `revoke()`: `onlyFarmerOrAuditor`, no state guard; sets `state = Revoked`
and `meta.revoked = true`, records nothing. -/
def revoke (e : Env) (o : Order) : Option Order :=
  if onlyFarmerOrAuditor e o then
    some { o with state := State.Revoked, meta := { o.meta with revoked := true } }
  else none

/-- The `updateLocation(latitude, longitude)`: `onlyContractOwners`; pushes a
`Location(latitude, longitude, msg.sender)` onto `locationHistory`. -/
def updateLocation (e : Env) (latitude longitude : String) (o : Order) :
    Option Order :=
  if onlyContractOwners e o then
    some { o with locationHistory :=
        o.locationHistory ++
          [{ latitude := latitude, longitude := longitude, who := e.sender }] }
  else none

/-- Modelled from the spec (§4.2): `setOwners` of `OrderAccessControl` (not in
the given sources) replaces the owner set with the five caller-supplied
addresses; "no access restriction observed". -/
def setOwners (a1 a2 a3 a4 a5 : Address) (o : Order) : Option Order :=
  some { o with owners := [a1, a2, a3, a4, a5] }

/-- The external mutating calls of one order ledger. -/
inductive Call where
  | approve
  | validated
  | storeAuditDocument
  | warehouseReceivedOrder
  | warehouseReleasedOrder
  | receivedAndInTransit
  | confirmDelivery
  | revoke
  | updateLocation (latitude longitude : String)
  | setOwners (a1 a2 a3 a4 a5 : Address)
deriving DecidableEq, Repr

/-- Dispatch a call against the ledger: `some o'` is a committed transaction,
`none` a revert. -/
def exec (e : Env) : Call → Order → Option Order
  | Call.approve => approve e
  | Call.validated => validated e
  | Call.storeAuditDocument => storeAuditDocument e
  | Call.warehouseReceivedOrder => warehouseReceivedOrder e
  | Call.warehouseReleasedOrder => warehouseReleasedOrder e
  | Call.receivedAndInTransit => receivedAndInTransit e
  | Call.confirmDelivery => confirmDelivery e
  | Call.revoke => revoke e
  | Call.updateLocation lat lon => updateLocation e lat lon
  | Call.setOwners a1 a2 a3 a4 a5 => setOwners a1 a2 a3 a4 a5

/-- The stored order after a call: a reverted call leaves storage unchanged
(ledger-native atomicity). -/
def run (e : Env) (c : Call) (o : Order) : Order := (exec e c o).getD o

/-- Orders reachable from the constructor by any sequence of committed calls. -/
inductive Reachable : Order → Prop where
  | init (product : String) (amount : Nat) (creator : Address) (roles : Roles) :
      Reachable (mkOrder product amount creator roles)
  | step (e : Env) (c : Call) (o o' : Order) :
      Reachable o → exec e c o = some o' → Reachable o'

/-! ### The §4.1 transition table

`RecCall` enumerates the seven state-recording transitions.  The `spec…`
functions below transcribe the table of §4.1 of the specification (required
role, precondition state, history label, new state — `none` meaning
"unchanged"); the claims compare the contract functions against them. -/

/-- The seven state-recording transitions of the §4.1 table. -/
inductive RecCall where
  | approve
  | validated
  | storeAuditDocument
  | warehouseReceivedOrder
  | warehouseReleasedOrder
  | receivedAndInTransit
  | confirmDelivery
deriving DecidableEq, Repr

/-- The `Call` a `RecCall` dispatches to. -/
def RecCall.toCall : RecCall → Call
  | RecCall.approve => Call.approve
  | RecCall.validated => Call.validated
  | RecCall.storeAuditDocument => Call.storeAuditDocument
  | RecCall.warehouseReceivedOrder => Call.warehouseReceivedOrder
  | RecCall.warehouseReleasedOrder => Call.warehouseReleasedOrder
  | RecCall.receivedAndInTransit => Call.receivedAndInTransit
  | RecCall.confirmDelivery => Call.confirmDelivery

/-- The §4.1 table, "Required role" column: the address that must be the caller. -/
def specRole : RecCall → Roles → Address
  | RecCall.approve, r => r.farmer
  | RecCall.validated, r => r.auditor
  | RecCall.storeAuditDocument, r => r.auditor
  | RecCall.warehouseReceivedOrder, r => r.warehouse
  | RecCall.warehouseReleasedOrder, r => r.warehouse
  | RecCall.receivedAndInTransit, r => r.distributor
  | RecCall.confirmDelivery, r => r.supermarket

/-- The §4.1 table, "Precondition" column. -/
def specPre : RecCall → State
  | RecCall.approve => State.Ordered
  | RecCall.validated => State.Approved
  | RecCall.storeAuditDocument => State.Audited
  | RecCall.warehouseReceivedOrder => State.Audited
  | RecCall.warehouseReleasedOrder => State.AtWarehouse
  | RecCall.receivedAndInTransit => State.WarehouseReleased
  | RecCall.confirmDelivery => State.InTransit

/-- The §4.1 table, "History label" column. -/
def specLabel : RecCall → String
  | RecCall.approve => "Approved"
  | RecCall.validated => "Audited"
  | RecCall.storeAuditDocument => "Stored document"
  | RecCall.warehouseReceivedOrder => "Received"
  | RecCall.warehouseReleasedOrder => "Released"
  | RecCall.receivedAndInTransit => "In Transit"
  | RecCall.confirmDelivery => "Confirmed Delivery"

/-- The §4.1 table, "New state" column; `none` means "unchanged". -/
def specNext : RecCall → Option State
  | RecCall.approve => some State.Approved
  | RecCall.validated => some State.Audited
  | RecCall.storeAuditDocument => none
  | RecCall.warehouseReceivedOrder => some State.AtWarehouse
  | RecCall.warehouseReleasedOrder => some State.WarehouseReleased
  | RecCall.receivedAndInTransit => some State.InTransit
  | RecCall.confirmDelivery => some State.Delivered

/-! ### Guard predicates, read off from each function's modifiers

`roleOk` and `statePre` restate, per call, exactly the `only…` modifier and
the `inState` modifier argument that the Solidity function carries;
`revoke` carries no `inState` modifier, `updateLocation` no state guard,
`setOwners` no guard at all. -/

/-- The role modifier of each call, as carried in the source. -/
def roleOk (e : Env) (o : Order) : Call → Prop
  | Call.approve => onlyFarmer e o
  | Call.validated => onlyAuditor e o
  | Call.storeAuditDocument => onlyAuditor e o
  | Call.warehouseReceivedOrder => onlyWarehouse e o
  | Call.warehouseReleasedOrder => onlyWarehouse e o
  | Call.receivedAndInTransit => onlyDistributor e o
  | Call.confirmDelivery => onlySupermarket e o
  | Call.revoke => onlyFarmerOrAuditor e o
  | Call.updateLocation _ _ => onlyContractOwners e o
  | Call.setOwners _ _ _ _ _ => True

/-- The `inState` modifier of each call, as carried in the source (`True`
where the source carries none). -/
def statePre (o : Order) : Call → Prop
  | Call.approve => o.state = State.Ordered
  | Call.validated => o.state = State.Approved
  | Call.storeAuditDocument => o.state = State.Audited
  | Call.warehouseReceivedOrder => o.state = State.Audited
  | Call.warehouseReleasedOrder => o.state = State.AtWarehouse
  | Call.receivedAndInTransit => o.state = State.WarehouseReleased
  | Call.confirmDelivery => o.state = State.InTransit
  | Call.revoke => True
  | Call.updateLocation _ _ => True
  | Call.setOwners _ _ _ _ _ => True

/-- The eight lifecycle transitions (everything except `updateLocation` and
`setOwners`). -/
def Call.isTransition : Call → Bool
  | Call.updateLocation _ _ => false
  | Call.setOwners _ _ _ _ _ => false
  | _ => true

/-! ### The gateway (`blockchain.service.ts`)

The gateway's promise pipelines are embedded denotationally: a remote read
that may fail is an `Except String` value, `Promise.all` over a list of reads
is monadic sequencing over the list (which, like `Promise.all`, keeps the
results in input order and fails when any element fails), and values read from
committed ledger storage are looked up in the embedded `Order`. -/

/-- Modelled from the spec: `sequentialArray(start, count)` from
`shared/utils` (not in the given sources) — the `count` consecutive integers
starting at `start` (spec §4.4: the clamped index window). -/
def sequentialArray (start : Nat) : Nat → List Nat
  | 0 => []
  | n + 1 => start :: sequentialArray (start + 1) n

/-- Modelled from the spec (§4.3): the registry contract (not in the given
sources) — an append-only sequence of order addresses; `getAmount()` is its
length and `orders(i)` an index lookup failing out of range. -/
structure Registry where
  orderAddresses : List Address
deriving DecidableEq, Repr

/-- The `getAmount()` of the registry. -/
def Registry.getAmount (reg : Registry) : Nat := reg.orderAddresses.length

/-- The `orders(index)` of the registry: `none` is the out-of-range failure. -/
def Registry.orderAt (reg : Registry) (index : Nat) : Option Address :=
  reg.orderAddresses.get? index

/-- One entry of the hydrated history, as assembled by `getHistoryRecord`
(`action` from `record[1]`, `owner` from `record[0]`). -/
structure OrderHistoryEntry where
  owner : Address
  action : String
deriving DecidableEq, Repr

/-- The hydrated order model assembled by `buildOrder`. -/
structure OrderModel where
  id : Address
  product : String
  amount : Nat
  status : State
  history : List OrderHistoryEntry
deriving DecidableEq, Repr

/-- The page result of `orders(startIndex, pageSize)`. -/
structure OrdersResponse where
  orders : List OrderModel
  total : Nat
deriving DecidableEq, Repr

/-- The `getHistoryRecord`'s projection of a raw record. -/
def recToEntry (r : Record) : OrderHistoryEntry :=
  { owner := r.who, action := r.action }

/-- The `getHistory(order)` reading committed ledger storage: read the history
length, then (when positive) one indexed read per position, reassembled in
index order. -/
def getHistory (o : Order) : Option (List OrderHistoryEntry) :=
  let historyLength := o.history.length
  if historyLength > 0 then
    ((sequentialArray 0 historyLength).mapM (fun i => o.history.get? i)).map
      (fun records => records.map recToEntry)
  else some []

/-- The `buildOrder(contract, address)` against committed ledger storage: the
metadata, status and history reads of an order at address `addr`, assembled
into one `OrderModel`. -/
def buildOrder (addr : Address) (o : Order) : Option OrderModel :=
  (getHistory o).map fun h =>
    { id := addr
      product := o.meta.product
      amount := o.meta.amount
      status := o.state
      history := h }

/-- The `getOrder(i)` of the gateway: resolve index `i` through the registry, then
hydrate the order found there (`hydrateAt` gives the hydrated view of the
ledger at each address). -/
def getOrder (reg : Registry) (hydrateAt : Address → OrderModel) (i : Nat) :
    Option OrderModel :=
  (reg.orderAt i).map hydrateAt

/-- The `orders(startIndex, pageSize)` of the gateway: read
`total = getAmount()`; when positive, clamp the window to
`min(total, startIndex + pageSize)`, resolve and hydrate every index of the
window (in index order, as `Promise.all` keeps them), and pair the page with
`total`; otherwise return the empty page. -/
def ordersPage (reg : Registry) (hydrateAt : Address → OrderModel)
    (startIndex pageSize : Nat) : Option OrdersResponse :=
  let total := reg.getAmount
  if total > 0 then
    let maxIndex := min total (startIndex + pageSize)
    let indices := sequentialArray startIndex (maxIndex - startIndex)
    (indices.mapM (getOrder reg hydrateAt)).map
      (fun page => { orders := page, total := total })
  else some { orders := [], total := total }

/-! ### Fallible hydration (`buildOrder` over remote reads)

For the fail-fast property the three read sequences are taken as arbitrary
`Except` results of the remote calls, not as reads of committed storage. -/

/-- The remote read surface one hydration works against; each read may fail
(transport failure, reverted call). -/
structure Reads where
  readMeta : Except String (String × Nat × Bool)
  readState : Except String State
  readHistoryLength : Except String Nat
  readHistoryAt : Nat → Except String Record

/-- The `getHistory` over remote reads: the length read, then (when positive) one
indexed read per position; any failing read fails the whole sequence. -/
def getHistoryR (r : Reads) : Except String (List OrderHistoryEntry) := do
  let historyLength ← r.readHistoryLength
  if historyLength > 0 then
    let records ← (sequentialArray 0 historyLength).mapM r.readHistoryAt
    pure (records.map recToEntry)
  else pure []

/-- The `buildOrder` over remote reads: the history, metadata and status reads
must all succeed (`Promise.all`) before the assembled order is returned. -/
def buildOrderR (addr : Address) (r : Reads) : Except String OrderModel := do
  let h ← getHistoryR r
  let m ← r.readMeta
  let s ← r.readState
  pure { id := addr
         product := m.1
         amount := m.2.1
         status := s
         history := h }

/-- Whether an `Except` computation succeeded. -/
def exceptOk {ε α : Type} : Except ε α → Bool
  | Except.ok _ => true
  | Except.error _ => false

/-! ### The action-dispatch path (`sendOrder`)

`sendOrder(order, methodName)` chains `setOwners`, the named transition call
and a re-hydration.  Its promise wiring is embedded denotationally by its
three sub-results.  The inner executor calls `setOwners(...).then(...)` but
attaches no rejection handler and never reaches `reject`; a `setOwners`
rejection therefore leaves the outer promise pending forever, unlogged.  A
rejection of the transition call or of the re-hydration reaches the final
`.catch(err => console.error(err))`, which logs it and settles the promise
with `undefined`. -/

/-- The final disposition of a promise: settled (with a value or a rejection)
or forever pending. -/
inductive Outcome (α : Type) where
  | settled : Except String α → Outcome α
  | pending : Outcome α

/-- What one `sendOrder` run does: how its returned promise ends up
(`Option OrderModel` because the `.catch` branch settles it with `undefined`),
what it publishes on the order-updated channel, and what it logs. -/
structure SendResult where
  outcome : Outcome (Option OrderModel)
  published : Option OrderModel
  logged : Option String

/-- The `sendOrder` as a function of the results of its three chained sub-calls:
`setOwnersRes` (step 1), `callRes` (the named transition, step 2) and
`hydrateRes` (the re-hydration, step 3). -/
def sendOrder (setOwnersRes : Except String Unit) (callRes : Except String Unit)
    (hydrateRes : Except String OrderModel) : SendResult :=
  match setOwnersRes with
  | Except.error _ =>
      { outcome := Outcome.pending, published := none, logged := none }
  | Except.ok _ =>
      match callRes with
      | Except.error e =>
          { outcome := Outcome.settled (Except.ok none)
            published := none
            logged := some e }
      | Except.ok _ =>
          match hydrateRes with
          | Except.error e =>
              { outcome := Outcome.settled (Except.ok none)
                published := none
                logged := some e }
          | Except.ok m =>
              { outcome := Outcome.settled (Except.ok (some m))
                published := some m
                logged := none }

/-! ### Runs of recording transitions (for the hydration round trip) -/

/-- The hydrated history entry a recording transition should produce. -/
def entryOf (p : Env × RecCall) : OrderHistoryEntry :=
  { owner := p.1.sender, action := specLabel p.2 }

/-- The raw history record a recording transition should produce. -/
def recordOf (p : Env × RecCall) : Record :=
  { who := p.1.sender, action := specLabel p.2, time := p.1.now % UINT32 }

/-- Run a sequence of recording transitions, failing if any call reverts. -/
def runAll (o : Order) : List (Env × RecCall) → Option Order
  | [] => some o
  | p :: cs => (exec p.1 p.2.toCall o).bind (fun o1 => runAll o1 cs)

/-- The state the §4.1 table predicts after a sequence of recording
transitions from state `s`. -/
def stateAfter (s : State) (cs : List (Env × RecCall)) : State :=
  cs.foldl (fun st p => (specNext p.2).getD st) s

/-- Whether a recording transition changes the state (per the §4.1 table,
every one but `storeAuditDocument`). -/
def changesState (p : Env × RecCall) : Bool := (specNext p.2).isSome

/-- The last state-changing transition of a run, when any. -/
def lastChanging (cs : List (Env × RecCall)) : Option (Env × RecCall) :=
  (cs.filter changesState).getLast?

/-! ### Concrete sample data (used to instantiate the theorems) -/

/-- A sample role assignment. -/
def rolesEx : Roles :=
  { farmer := 1, auditor := 2, warehouse := 3, distributor := 4, supermarket := 5 }

/-- A freshly constructed sample order. -/
def orderEx : Order := mkOrder "Apples" 5 0 rolesEx

/-- The sample order driven through the whole happy path to `Delivered`. -/
def deliveredEx : Order :=
  run { sender := 5, now := 16 } Call.confirmDelivery
    (run { sender := 4, now := 15 } Call.receivedAndInTransit
      (run { sender := 3, now := 14 } Call.warehouseReleasedOrder
        (run { sender := 3, now := 13 } Call.warehouseReceivedOrder
          (run { sender := 2, now := 12 } Call.validated
            (run { sender := 1, now := 11 } Call.approve orderEx)))))

/-- The sample order after a first `revoke` by the farmer. -/
def revokedEx : Order := run { sender := 1, now := 20 } Call.revoke orderEx

/-- A sample run of two recording transitions. -/
def csEx : List (Env × RecCall) :=
  [({ sender := 1, now := 11 }, RecCall.approve),
   ({ sender := 2, now := 12 }, RecCall.validated)]

/-- The sample order after the two transitions of `csEx`. -/
def auditedEx : Order :=
  run { sender := 2, now := 12 } Call.validated
    (run { sender := 1, now := 11 } Call.approve orderEx)

/-- A sample hydrated order model. -/
def modelEx : OrderModel :=
  { id := 7, product := "Apples", amount := 5, status := State.Ordered, history := [] }

/-- A sample read surface whose history reads fail. -/
def readsFailEx : Reads :=
  { readMeta := Except.ok ("Apples", 5, false)
    readState := Except.ok State.Ordered
    readHistoryLength := Except.ok 1
    readHistoryAt := fun _ => Except.error "boom" }

/-! ### Helper lemmas -/

/-- Effect of any committed call on the revocation flag, the state and the
history: the non-state-changing calls keep flag and state and extend the
history; the six forward transitions keep the flag, start and end outside
`Revoked`, and extend the history; `revoke` sets flag and state and keeps the
history. -/
theorem exec_effect (e : Env) (c : Call) (o o' : Order)
    (h : exec e c o = some o') :
    (o'.meta.revoked = o.meta.revoked ∧ o'.state = o.state ∧
        ∃ t, o'.history = o.history ++ t) ∨
    (o'.meta.revoked = o.meta.revoked ∧ o.state ≠ State.Revoked ∧
        o'.state ≠ State.Revoked ∧ ∃ t, o'.history = o.history ++ t) ∨
    (o'.meta.revoked = true ∧ o'.state = State.Revoked ∧
        o'.history = o.history) := by
  cases c with
  | approve =>
    simp only [exec, approve] at h
    split at h
    · cases Option.some.inj h
      next hc =>
        exact Or.inr (Or.inl ⟨rfl, by simp [hc.2], by simp [addRecord],
          [_], rfl⟩)
    · exact absurd h (by simp)
  | validated =>
    simp only [exec, validated] at h
    split at h
    · cases Option.some.inj h
      next hc =>
        exact Or.inr (Or.inl ⟨rfl, by simp [hc.2], by simp [addRecord],
          [_], rfl⟩)
    · exact absurd h (by simp)
  | storeAuditDocument =>
    simp only [exec, storeAuditDocument] at h
    split at h
    · cases Option.some.inj h
      exact Or.inl ⟨rfl, rfl, [_], rfl⟩
    · exact absurd h (by simp)
  | warehouseReceivedOrder =>
    simp only [exec, warehouseReceivedOrder] at h
    split at h
    · cases Option.some.inj h
      next hc =>
        exact Or.inr (Or.inl ⟨rfl, by simp [hc.2], by simp [addRecord],
          [_], rfl⟩)
    · exact absurd h (by simp)
  | warehouseReleasedOrder =>
    simp only [exec, warehouseReleasedOrder] at h
    split at h
    · cases Option.some.inj h
      next hc =>
        exact Or.inr (Or.inl ⟨rfl, by simp [hc.2], by simp [addRecord],
          [_], rfl⟩)
    · exact absurd h (by simp)
  | receivedAndInTransit =>
    simp only [exec, receivedAndInTransit] at h
    split at h
    · cases Option.some.inj h
      next hc =>
        exact Or.inr (Or.inl ⟨rfl, by simp [hc.2], by simp [addRecord],
          [_], rfl⟩)
    · exact absurd h (by simp)
  | confirmDelivery =>
    simp only [exec, confirmDelivery] at h
    split at h
    · cases Option.some.inj h
      next hc =>
        exact Or.inr (Or.inl ⟨rfl, by simp [hc.2], by simp [addRecord],
          [_], rfl⟩)
    · exact absurd h (by simp)
  | revoke =>
    simp only [exec, revoke] at h
    split at h
    · cases Option.some.inj h
      exact Or.inr (Or.inr ⟨rfl, rfl, rfl⟩)
    · exact absurd h (by simp)
  | updateLocation lat lon =>
    simp only [exec, updateLocation] at h
    split at h
    · cases Option.some.inj h
      exact Or.inl ⟨rfl, rfl, [], by simp⟩
    · exact absurd h (by simp)
  | setOwners a1 a2 a3 a4 a5 =>
    simp only [exec, setOwners] at h
    cases Option.some.inj h
    exact Or.inl ⟨rfl, rfl, [], by simp⟩

/-! ### Claim theorems: the contract -/

/-- C1.  Every state-recording transition, called by the required role in the
precondition state, commits, appends exactly one history record with the
caller's address and the §4.1 label, and moves `state` to the documented
successor (`storeAuditDocument` leaves it unchanged, `specNext` being `none`
there). -/
theorem transition_follows_table (e : Env) (o : Order) (c : RecCall)
    (hrole : specRole c o.roles = e.sender) (hpre : o.state = specPre c) :
    ∃ o', exec e c.toCall o = some o' ∧
      o'.history = o.history ++
        [{ who := e.sender, action := specLabel c, time := e.now % UINT32 }] ∧
      o'.state = (specNext c).getD o.state := by
  cases c <;>
    simp_all [RecCall.toCall, exec, specRole, specPre, specLabel, specNext,
      approve, validated, storeAuditDocument, warehouseReceivedOrder,
      warehouseReleasedOrder, receivedAndInTransit, confirmDelivery, addRecord,
      onlyFarmer, onlyAuditor, onlyWarehouse, onlyDistributor, onlySupermarket]

/-- Witness for C1: the farmer approving the fresh sample order. -/
theorem transition_follows_table_witness :
    ∃ o', exec { sender := 1, now := 10 } RecCall.approve.toCall orderEx = some o' ∧
      o'.history = orderEx.history ++
        [{ who := 1, action := specLabel RecCall.approve, time := 10 % UINT32 }] ∧
      o'.state = (specNext RecCall.approve).getD orderEx.state :=
  transition_follows_table { sender := 1, now := 10 } orderEx RecCall.approve rfl rfl

/-- A call commits exactly when its role guard and its `inState` guard both
hold. -/
theorem isSome_exec (e : Env) (c : Call) (o : Order) :
    (exec e c o).isSome = true ↔ (roleOk e o c ∧ statePre o c) := by
  cases c <;>
    simp only [exec, roleOk, statePre, approve, validated, storeAuditDocument,
      warehouseReceivedOrder, warehouseReleasedOrder, receivedAndInTransit,
      confirmDelivery, revoke, updateLocation, setOwners] <;>
    (try split) <;> simp_all <;> tauto

/-- C2.  A lifecycle call whose role guard or `inState` guard fails reverts:
it commits nothing, and the stored order (state, meta, history and all) is
exactly as before. -/
theorem failed_transition_reverts (e : Env) (c : Call) (o : Order)
    (_ht : c.isTransition = true) (h : ¬ (roleOk e o c ∧ statePre o c)) :
    exec e c o = none ∧ run e c o = o := by
  have hx : exec e c o = none := by
    cases he : exec e c o with
    | none => rfl
    | some o1 => exact absurd ((isSome_exec e c o).mp (by simp [he])) h
  exact ⟨hx, by simp [run, hx]⟩

/-- Witness for C2: a non-farmer calling `approve` on the fresh sample order. -/
theorem failed_transition_reverts_witness :
    exec { sender := 9, now := 10 } Call.approve orderEx = none ∧
    run { sender := 9, now := 10 } Call.approve orderEx = orderEx :=
  failed_transition_reverts { sender := 9, now := 10 } Call.approve orderEx rfl
    (by simp [roleOk, statePre, orderEx, mkOrder, rolesEx])

/-- C3 counterexample.  The sample order driven to `Delivered` still admits
`revoke`: the farmer's `revoke` commits and moves the state to `Revoked`, so
`Revoked` is reachable from `Delivered` (the claim asserts it is not). -/
theorem revoke_from_delivered_counterexample :
    deliveredEx.state = State.Delivered ∧
    (exec { sender := 1, now := 20 } Call.revoke deliveredEx).map Order.state =
      some State.Revoked := by
  decide

/-- C3 (amended).  `revoke`, called by the farmer or the auditor, succeeds
from every state — `Delivered` included — setting `state = Revoked` and
`meta.revoked = true` while recording no history entry and touching nothing
else. -/
theorem revoke_any_state (e : Env) (o : Order) (h : onlyFarmerOrAuditor e o) :
    exec e Call.revoke o =
      some { o with
             state := State.Revoked,
             meta := { o.meta with revoked := true } } := by
  simp [exec, revoke, h]

/-- Witness for the amended C3: revoking the delivered sample order. -/
theorem revoke_any_state_witness :
    exec { sender := 1, now := 20 } Call.revoke deliveredEx =
      some { deliveredEx with
             state := State.Revoked,
             meta := { deliveredEx.meta with revoked := true } } :=
  revoke_any_state { sender := 1, now := 20 } deliveredEx (Or.inl rfl)

/-- C4.  On every order reachable from the constructor by committed calls,
`meta.revoked = true` holds exactly when `state = Revoked`. -/
theorem revoked_iff_state_revoked (o : Order) (h : Reachable o) :
    (o.meta.revoked = true ↔ o.state = State.Revoked) := by
  induction h with
  | init product amount creator roles => simp [mkOrder]
  | step e c o o' hR hexec ih =>
    rcases exec_effect e c o o' hexec with
      ⟨h1, h2, -⟩ | ⟨h1, h2, h3, -⟩ | ⟨h1, h2⟩
    · rw [h1, h2]; exact ih
    · rw [h1]
      constructor
      · intro hr; exact absurd (ih.mp hr) h2
      · intro hs; exact absurd hs h3
    · simp [h1, h2]

/-- Witness for C4: the invariant at the freshly constructed sample order. -/
theorem revoked_iff_state_revoked_witness :
    ((mkOrder "Apples" 5 0 rolesEx).meta.revoked = true ↔
      (mkOrder "Apples" 5 0 rolesEx).state = State.Revoked) :=
  revoked_iff_state_revoked _ (Reachable.init "Apples" 5 0 rolesEx)

/-- C5.  Every call — committed or reverted, `revoke` and `updateLocation`
included — leaves the previous history as a prefix of the new one: history is
append-only. -/
theorem history_append_only (e : Env) (c : Call) (o : Order) :
    ∃ t, (run e c o).history = o.history ++ t := by
  cases hx : exec e c o with
  | none => exact ⟨[], by simp [run, hx]⟩
  | some o' =>
    rcases exec_effect e c o o' hx with
      ⟨-, -, t, ht⟩ | ⟨-, -, -, t, ht⟩ | ⟨-, -, ht⟩
    · exact ⟨t, by simp [run, hx, ht]⟩
    · exact ⟨t, by simp [run, hx, ht]⟩
    · exact ⟨[], by simp [run, hx, ht]⟩

/-- C10.  `revoke` is idempotent: once a `revoke` has committed, a second
`revoke` by any caller passing the farmer-or-auditor guard commits and leaves
the stored order — state, meta, history, location history — exactly as after
the first. -/
theorem revoke_idempotent (e1 e2 : Env) (o o1 : Order)
    (h1 : exec e1 Call.revoke o = some o1)
    (h2 : onlyFarmerOrAuditor e2 o1) :
    exec e2 Call.revoke o1 = some o1 := by
  simp only [exec, revoke] at h1 ⊢
  split at h1
  · cases Option.some.inj h1
    rw [if_pos h2]
  · exact absurd h1 (by simp)

/-- Witness for C10: the auditor re-revoking the already revoked sample
order. -/
theorem revoke_idempotent_witness :
    exec { sender := 2, now := 21 } Call.revoke revokedEx = some revokedEx :=
  revoke_idempotent { sender := 1, now := 20 } { sender := 2, now := 21 }
    orderEx revokedEx rfl (Or.inr rfl)

/-! ### Helper lemmas: the gateway -/

/-- The `sequentialArray` produces the ascending index range. -/
theorem sequentialArray_eq_range (s n : Nat) :
    sequentialArray s n = List.range' s n := by
  induction n generalizing s with
  | zero => rfl
  | succ n ih => rw [sequentialArray, List.range'_succ, ih]

/-- Membership bound for `sequentialArray`. -/
theorem mem_sequentialArray {s n i : Nat} :
    i ∈ sequentialArray s n ↔ s ≤ i ∧ i < s + n := by
  induction n generalizing s with
  | zero =>
    simp only [sequentialArray, List.not_mem_nil, false_iff]
    omega
  | succ n ih =>
    simp only [sequentialArray, List.mem_cons, ih]
    omega

/-- An `Option`-valued map over a list on which the function everywhere
succeeds succeeds, keeping input order. -/
theorem mapM_eq_some_map {α β : Type} (f : α → Option β) (g : α → β)
    (l : List α) (hf : ∀ a ∈ l, f a = some (g a)) :
    l.mapM f = some (l.map g) := by
  induction l with
  | nil => rfl
  | cons a l ih =>
    rw [List.mapM_cons, hf a (by simp),
      ih (fun x hx => hf x (by simp [hx]))]
    rfl

/-- An index below the registry count resolves and hydrates. -/
theorem getOrder_lt (reg : Registry) (hydrateAt : Address → OrderModel)
    (i : Nat) (h : i < reg.getAmount) :
    getOrder reg hydrateAt i =
      some (hydrateAt (reg.orderAddresses.getD i 0)) := by
  unfold getOrder Registry.orderAt
  rw [List.getD_eq_getD_get?]
  cases hx : reg.orderAddresses.get? i with
  | none =>
    rw [List.get?_eq_none] at hx
    exact absurd h (by simp only [Registry.getAmount]; omega)
  | some x => rfl

/-- Reading a full index range back from a list recovers its suffix. -/
theorem mapM_get?_sequentialArray {α : Type} (xs : List α) (s n : Nat)
    (h : s + n = xs.length) :
    (sequentialArray s n).mapM xs.get? = some (xs.drop s) := by
  induction n generalizing s with
  | zero =>
    have hd : xs.drop s = [] := List.drop_eq_nil_of_le (by omega)
    rw [sequentialArray, hd]
    rfl
  | succ n ih =>
    have hs : s < xs.length := by omega
    rw [sequentialArray, List.mapM_cons, List.get?_eq_get hs,
      ih (s + 1) (by omega), List.drop_eq_getElem_cons hs]
    rfl

/-- The `getHistory` against committed storage returns the whole raw history,
projected entrywise, in order. -/
theorem getHistory_eq (o : Order) :
    getHistory o = some (o.history.map recToEntry) := by
  unfold getHistory
  by_cases h : o.history.length > 0
  · rw [if_pos h,
      mapM_get?_sequentialArray o.history 0 o.history.length (by omega)]
    simp
  · rw [if_neg h]
    have hnil : o.history = [] := List.length_eq_zero.mp (by omega)
    simp [hnil]

/-- The `buildOrder` against committed storage succeeds and copies metadata,
state and projected history into the model. -/
theorem buildOrder_eq (addr : Address) (o : Order) :
    buildOrder addr o =
      some { id := addr
             product := o.meta.product
             amount := o.meta.amount
             status := o.state
             history := o.history.map recToEntry } := by
  unfold buildOrder
  rw [getHistory_eq]
  rfl

/-- Effect of one committed recording transition on history and state. -/
theorem execRec_effect (e : Env) (c : RecCall) (o o1 : Order)
    (h : exec e c.toCall o = some o1) :
    o1.history = o.history ++ [recordOf (e, c)] ∧
    o1.state = (specNext c).getD o.state := by
  cases c <;>
    simp only [RecCall.toCall, exec, approve, validated, storeAuditDocument,
      warehouseReceivedOrder, warehouseReleasedOrder, receivedAndInTransit,
      confirmDelivery] at h <;>
    split at h <;>
    first
      | (cases Option.some.inj h
         exact ⟨by simp [addRecord, recordOf, specLabel],
           by simp [addRecord, specNext]⟩)
      | exact absurd h (by simp)

/-- Effect of a committed run of recording transitions: the records pile up
in call order and the state follows the table. -/
theorem runAll_effect (cs : List (Env × RecCall)) (o o' : Order)
    (h : runAll o cs = some o') :
    o'.history = o.history ++ cs.map recordOf ∧
    o'.state = stateAfter o.state cs := by
  induction cs generalizing o with
  | nil =>
    cases Option.some.inj h
    simp [stateAfter]
  | cons p cs ih =>
    rw [runAll] at h
    cases hx : exec p.1 p.2.toCall o with
    | none => rw [hx] at h; cases h
    | some o1 =>
      rw [hx] at h
      obtain ⟨h1, h2⟩ := execRec_effect p.1 p.2 o o1 hx
      obtain ⟨ih1, ih2⟩ := ih o1 h
      refine ⟨?_, ?_⟩
      · rw [ih1, h1]; simp
      · rw [ih2, h2]; rfl

/-- The table state after a run is the successor of its last state-changing
transition. -/
theorem stateAfter_lastChanging (cs : List (Env × RecCall)) (s : State)
    (p : Env × RecCall) (h : lastChanging cs = some p) :
    specNext p.2 = some (stateAfter s cs) := by
  induction cs using List.reverseRecOn generalizing s with
  | nil => simp [lastChanging] at h
  | append_singleton l q ih =>
    by_cases hq : changesState q = true
    · have hl : lastChanging (l ++ [q]) = some q := by
        simp [lastChanging, List.filter_append, hq]
      rw [hl] at h
      obtain hpq := Option.some.inj h
      rw [← hpq]
      have hfold : stateAfter s (l ++ [q]) =
          (specNext q.2).getD (stateAfter s l) := by
        simp [stateAfter, List.foldl_append]
      rw [hfold]
      cases hsn : specNext q.2 with
      | none => simp [changesState, hsn] at hq
      | some st => simp
    · have hl : lastChanging (l ++ [q]) = lastChanging l := by
        simp [lastChanging, List.filter_append, hq]
      rw [hl] at h
      have hfold : stateAfter s (l ++ [q]) = stateAfter s l := by
        cases hsn : specNext q.2 with
        | none => simp [stateAfter, List.foldl_append, hsn]
        | some st => simp [changesState, hsn] at hq
      rw [hfold]
      exact ih s h

/-- The `Except` bind on a success. -/
theorem exceptBind_ok {ε α β : Type} (a : α) (g : α → Except ε β) :
    (Except.ok a >>= g) = g a := rfl

/-- The `Except` bind on a failure short-circuits. -/
theorem exceptBind_error {ε α β : Type} (e : ε) (g : α → Except ε β) :
    ((Except.error e : Except ε α) >>= g) = Except.error e := rfl

/-- If an `Except`-valued map over a list succeeded, every elementwise call
succeeded. -/
theorem mapM_ok_forall {ε α β : Type} (f : α → Except ε β) (l : List α)
    (xs : List β) (h : l.mapM f = Except.ok xs) :
    ∀ a ∈ l, exceptOk (f a) = true := by
  induction l generalizing xs with
  | nil => intro a ha; cases ha
  | cons b l ih =>
    rw [List.mapM_cons] at h
    intro a ha
    cases hf : f b with
    | error e => rw [hf, exceptBind_error] at h; cases h
    | ok y =>
      rw [hf, exceptBind_ok] at h
      rcases List.mem_cons.mp ha with rfl | hmem
      · simp [exceptOk, hf]
      · cases hm : l.mapM f with
        | error e2 => rw [hm, exceptBind_error] at h; cases h
        | ok ys => exact ih ys hm a hmem

/-! ### Claim theorems: the gateway -/

/-- C6.  The page listing always succeeds, reporting `total = getAmount()`
and the hydrated orders at exactly the indices
`startIndex .. min(total, startIndex + pageSize) - 1` in ascending index
order; in particular an empty registry yields the empty page with
`total = 0`. -/
theorem orders_page_window (reg : Registry) (hydrateAt : Address → OrderModel)
    (startIndex pageSize : Nat) :
    ordersPage reg hydrateAt startIndex pageSize =
      some { orders :=
               (List.range' startIndex
                   (min reg.getAmount (startIndex + pageSize) - startIndex)).map
                 (fun i => hydrateAt (reg.orderAddresses.getD i 0))
             total := reg.getAmount } := by
  simp only [ordersPage]
  by_cases h : reg.getAmount > 0
  · rw [if_pos h,
      mapM_eq_some_map (getOrder reg hydrateAt)
        (fun i => hydrateAt (reg.orderAddresses.getD i 0))
        (sequentialArray startIndex
          (min reg.getAmount (startIndex + pageSize) - startIndex))
        (fun i hi => getOrder_lt reg hydrateAt i (by
          have hb := mem_sequentialArray.mp hi
          omega)),
      sequentialArray_eq_range]
    rfl
  · rw [if_neg h]
    have h0 : reg.getAmount = 0 := by omega
    simp [h0]

/-- C7.  Hydrating an order straight after a committed run of `N` recording
transitions yields a history of length `N` whose entries carry, in call
order, each caller and each label, and a status equal to the successor state
of the run's last state-changing transition. -/
theorem hydration_roundtrip (product : String) (amount : Nat)
    (creator : Address) (roles : Roles) (cs : List (Env × RecCall))
    (o' : Order) (addr : Address)
    (h : runAll (mkOrder product amount creator roles) cs = some o') :
    ∃ m, buildOrder addr o' = some m ∧
      m.history = cs.map entryOf ∧
      ∀ p, lastChanging cs = some p → specNext p.2 = some m.status := by
  obtain ⟨h1, h2⟩ := runAll_effect cs _ o' h
  refine ⟨_, buildOrder_eq addr o', ?_, ?_⟩
  · rw [h1]
    simp only [mkOrder, List.nil_append, List.map_map]
    rfl
  · intro p hp
    rw [h2]
    exact stateAfter_lastChanging cs _ p hp

/-- Witness for C7: running `approve` then `validated` on the sample order
and hydrating it. -/
theorem hydration_roundtrip_witness :
    ∃ m, buildOrder 7 auditedEx = some m ∧
      m.history = csEx.map entryOf ∧
      specNext RecCall.validated = some m.status := by
  obtain ⟨m, hm, hh, hs⟩ :=
    hydration_roundtrip "Apples" 5 0 rolesEx csEx auditedEx 7 rfl
  exact ⟨m, hm, hh,
    hs ({ sender := 2, now := 12 }, RecCall.validated) rfl⟩

/-- C8.  Fallible hydration is fail-fast: `buildOrder` returns a hydrated
order exactly when the history read sequence, the metadata read and the
status read all succeed, and the history read sequence itself fails whenever
any single indexed record read inside the read window fails — no partially
populated order is ever returned. -/
theorem hydration_fail_fast (addr : Address) (r : Reads) :
    (exceptOk (buildOrderR addr r) =
      (exceptOk (getHistoryR r) && exceptOk r.readMeta &&
        exceptOk r.readState)) ∧
    (∀ n i e, r.readHistoryLength = Except.ok n → i < n →
      r.readHistoryAt i = Except.error e →
      exceptOk (getHistoryR r) = false) := by
  constructor
  · unfold buildOrderR
    cases hh : getHistoryR r with
    | error e => rw [exceptBind_error]; simp [exceptOk]
    | ok hv =>
      rw [exceptBind_ok]
      cases hm : r.readMeta with
      | error e => rw [exceptBind_error]; simp [exceptOk]
      | ok mv =>
        rw [exceptBind_ok]
        cases hs : r.readState with
        | error e => rw [exceptBind_error]; simp [exceptOk]
        | ok sv => rw [exceptBind_ok]; rfl
  · intro n i e hn hi ha
    unfold getHistoryR
    rw [hn, exceptBind_ok, if_pos (by omega)]
    cases hm : (sequentialArray 0 n).mapM r.readHistoryAt with
    | error e2 => rw [exceptBind_error]; rfl
    | ok recs =>
      have hall := mapM_ok_forall r.readHistoryAt _ recs hm i
        (mem_sequentialArray.mpr (by omega))
      rw [ha] at hall
      cases hall

/-- Witness for C8: the sample read surface whose record read fails hydrates
to a failure. -/
theorem hydration_fail_fast_witness :
    exceptOk (buildOrderR 7 readsFailEx) = false ∧
    exceptOk (getHistoryR readsFailEx) = false := by
  obtain ⟨h1, h2⟩ := hydration_fail_fast 7 readsFailEx
  have hh : exceptOk (getHistoryR readsFailEx) = false :=
    h2 1 0 "boom" rfl (by omega) rfl
  refine ⟨?_, hh⟩
  rw [h1, hh]
  rfl

/-- C9 counterexample.  When the `setOwners` step fails, `sendOrder` neither
catches nor logs the error: the rejection is unhandled, the returned promise
never settles, and nothing is published — refuting the claim that a failing
`setOwners` call is caught and logged. -/
theorem sendOrder_setOwners_failure_counterexample :
    sendOrder (Except.error "rpc failure") (Except.ok ()) (Except.ok modelEx) =
      { outcome := Outcome.pending, published := none, logged := none } :=
  rfl

/-- C9 (amended).  The action-dispatch path publishes the re-hydrated order
exactly on full success; a failure of the transition call or of the
re-hydration is caught and logged, settles the promise with no value and
publishes nothing; a failure of `setOwners` is neither caught nor logged —
the promise never settles — and still nothing is published and no exception
reaches the caller or the notification channel. -/
theorem sendOrder_dispatch (so call : Except String Unit)
    (hy : Except String OrderModel) :
    ((sendOrder so call hy).published ≠ none ↔
      (exceptOk so = true ∧ exceptOk call = true ∧ exceptOk hy = true)) ∧
    (∀ m, hy = Except.ok m → exceptOk so = true → exceptOk call = true →
      (sendOrder so call hy).published = some m) ∧
    (exceptOk so = false →
      sendOrder so call hy =
        { outcome := Outcome.pending, published := none, logged := none }) ∧
    (exceptOk so = true →
      (exceptOk call = false ∨ (exceptOk call = true ∧ exceptOk hy = false)) →
      (sendOrder so call hy).published = none ∧
      (sendOrder so call hy).logged ≠ none ∧
      (sendOrder so call hy).outcome = Outcome.settled (Except.ok none)) := by
  cases so with
  | error e => cases call <;> cases hy <;> simp [sendOrder, exceptOk]
  | ok u =>
    cases u
    cases call with
    | error e2 => cases hy <;> simp [sendOrder, exceptOk]
    | ok u2 =>
      cases u2
      cases hy with
      | error e3 => simp [sendOrder, exceptOk]
      | ok m => simp [sendOrder, exceptOk]

/-- Witness for the amended C9: a full success publishes the hydrated order,
and a failing transition call publishes nothing. -/
theorem sendOrder_dispatch_witness :
    (sendOrder (Except.ok ()) (Except.ok ()) (Except.ok modelEx)).published =
      some modelEx ∧
    (sendOrder (Except.ok ()) (Except.error "down")
        (Except.ok modelEx)).published = none := by
  refine ⟨(sendOrder_dispatch (Except.ok ()) (Except.ok ())
      (Except.ok modelEx)).2.1 modelEx rfl rfl rfl, ?_⟩
  exact ((sendOrder_dispatch (Except.ok ()) (Except.error "down")
      (Except.ok modelEx)).2.2.2 rfl (Or.inl rfl)).1

end SupplyChain
